import Mathlib

/-!
Verification of the mount lifecycle subsystem of `install-arch-linux.py`.

The script drives external tools (`sgdisk`, `mkfs.*`, `mkdir`, `mount`,
`umount`) through a `_run` helper that raises on failure and re-raises
keyboard interrupts.  We embed each relevant function as a pure Lean
function that returns the sequence of issued commands (each command is its
argument vector, a `List String`) together with the exception outcome,
modelling Python's `try`/`finally` semantics explicitly: a `finally` block
always runs, and an exception raised inside `finally` replaces the
in-flight exception.
-/

namespace InstallArch

/-- `PartitionType` enum of the script. -/
inductive PartitionType where
  | LINUX_HOME
  | LINUX_X86_64_ROOT
  | EFI_SYSTEM
deriving DecidableEq, Repr

/-- `PartitionType.type_id`: the GPT type code string of each enum member. -/
def PartitionType.type_id : PartitionType → String
  | .LINUX_HOME => "8302"
  | .LINUX_X86_64_ROOT => "8304"
  | .EFI_SYSTEM => "ef00"

/-- `FileSystemType` enum of the script. -/
inductive FileSystemType where
  | BTRFS
  | EXT4
  | FAT32
deriving DecidableEq, Repr

/-- `FileSystemType.name`: the filesystem name string of each member. -/
def FileSystemType.fsName : FileSystemType → String
  | .BTRFS => "btrfs"
  | .EXT4 => "ext4"
  | .FAT32 => "vfat"

/-- `FileSystemType.formatter`: the formatter command of each member. -/
def FileSystemType.formatter : FileSystemType → List String
  | .BTRFS => ["mkfs.btrfs", "-f"]
  | .EXT4 => ["mkfs.ext4"]
  | .FAT32 => ["mkfs.fat", "-F32"]

/-- The `Partition` named tuple: `size` is `Optional[int]` (unit MiB). -/
structure Partition where
  size : Option Int
  partition_type : PartitionType
  file_system : FileSystemType
  mount_point : String
deriving DecidableEq, Repr

/-- The `MountSpec` named tuple. -/
structure MountSpec where
  disk : String
  partition_id : Nat
  file_system_name : String
deriving DecidableEq, Repr

/-- `MountSpec.partition`: the physical partition identifier
`f'{self.disk}{self.partition_id}'`. -/
def MountSpec.partition (s : MountSpec) : String :=
  s!"{s.disk}{s.partition_id}"

/-- The `MountSpecs` named tuple. -/
structure MountSpecs where
  root : MountSpec
  boot : Option MountSpec
  home : Option MountSpec
deriving DecidableEq, Repr

/-- Python's `str.rstrip('/')`: drop every trailing `'/'` character. -/
def rstripSlash (s : String) : String :=
  String.mk ((s.data.reverse.dropWhile (fun c => c = '/')).reverse)

/-- A partition table: the script's `partitions` mapping, a `dict` from disk
device path to the ordered list of `Partition` specs; Python dicts preserve
insertion order, so we model the mapping as an association list. -/
abbrev PartitionTable := List (String × List Partition)

/-- `_partition`: the exact sequence of command argument vectors issued.
`for disk, partition_items in partitions.items()` runs `sgdisk -Z disk`,
then for `i, partition_item in enumerate(partition_items, 1)` the create
command (branching on the Python truthiness of `partition_item.size`), the
type-setting command, and the formatter command against `f'{disk}{i}'`. -/
def _partition (partitions : PartitionTable) : List (List String) :=
  partitions.flatMap fun d =>
    ["sgdisk", "-Z", d.1] ::
      (List.enumFrom 1 d.2).flatMap fun p =>
        (match p.2.size with
          | some n => if n != 0 then ["sgdisk", s!"-n={p.1}:0:+{n}M", d.1]
                      else ["sgdisk", s!"-n={p.1}:0:0", d.1]
          | none => ["sgdisk", s!"-n={p.1}:0:0", d.1]) ::
        ["sgdisk", s!"-t={p.1}:{p.2.partition_type.type_id}", d.1] ::
        [p.2.file_system.formatter ++ [s!"{d.1}{p.1}"]]

/-- Result of one `_run` invocation as seen by the caller: the external
command succeeds, fails (`CalledProcessError`), or is interrupted
(`KeyboardInterrupt`); `_run` re-raises in the latter two cases. -/
inductive Outcome where
  | ok
  | fail
  | interrupt
deriving DecidableEq, Repr

/-- Python exceptions relevant to the mount scope: a command failure
carrying the failed argument vector, a keyboard interrupt, or an error
raised by the caller-supplied body of the `with` scope. -/
inductive PyErr where
  | cmdFailed (cmd : List String)
  | interrupt
  | bodyErr
deriving DecidableEq, Repr

/-- An oracle assigns each issued command its outcome. -/
abbrev Oracle := List String → Outcome

/-- `_run` under an oracle: `none` on success, otherwise the raised error. -/
def runCmd (oracle : Oracle) (c : List String) : Option PyErr :=
  match oracle c with
  | .ok => none
  | .fail => some (.cmdFailed c)
  | .interrupt => some .interrupt

/-- The oracle under which every external command succeeds. -/
def allOk : Oracle := fun _ => .ok

/-- The commands `_do_mount` issues to acquire one (target, source) pair:
`mkdir -p target` then `mount source target`. -/
def acquireCmds (p : String × String) : List (List String) :=
  [["mkdir", "-p", p.1], ["mount", p.2, p.1]]

/-- The command `_do_mount` issues to release one (target, source) pair. -/
def umountCmd (p : String × String) : List String :=
  ["umount", p.1]

/-- The caller-supplied body of the mount scope: the commands it issues
(via `_run`) and its outcome (`none` = normal completion, `some e` = the
exception escaping the body, e.g. `PyErr.bodyErr` or `PyErr.interrupt`). -/
abbrev Body := List (List String) × Option PyErr

/-- `_do_mount`, the recursive context manager, executed to completion on a
list of (target, source) pairs: returns the full trace of issued commands
and the exception outcome of the scope.  An empty list (`StopIteration`)
just runs the body.  Otherwise `mkdir -p target` and `mount source target`
run before the `try`, so their failure propagates without any unmount at
this level; once they succeed, recursion and body run under
`try ... finally: _run('umount', target)`, so the unmount is always issued,
and per Python semantics an exception raised by the `finally` clause
replaces the in-flight exception. -/
def doMount (oracle : Oracle) (body : Body) :
    List (String × String) → List (List String) × Option PyErr
  | [] => body
  | (target, source) :: rest =>
    match runCmd oracle ["mkdir", "-p", target] with
    | some e => ([["mkdir", "-p", target]], some e)
    | none =>
      match runCmd oracle ["mount", source, target] with
      | some e => ([["mkdir", "-p", target], ["mount", source, target]], some e)
      | none =>
        let inner := doMount oracle body rest
        (["mkdir", "-p", target] :: ["mount", source, target] ::
            (inner.1 ++ [["umount", target]]),
          match runCmd oracle ["umount", target] with
          | some e => some e
          | none => inner.2)

/-- Comparison of two `(target, source)` tuples as Python's `sorted`
compares 2-tuples of strings: lexicographically, first component first. -/
def pairLE (a b : String × String) : Bool :=
  decide (a.1 < b.1 ∨ (a.1 = b.1 ∧ a.2 ≤ b.2))

/-- The generator expression inside `_mount_filesystems`, before sorting:
`(root + partition_item.mount_point.rstrip('/'), f'{disk}{i}')` for every
disk in table order and every partition with its 1-based index, with
`root` already stripped of trailing separators. -/
def rawMountSpecs (partitions : PartitionTable) (root : String) :
    List (String × String) :=
  partitions.flatMap fun d =>
    (List.enumFrom 1 d.2).map fun p =>
      (rstripSlash root ++ rstripSlash p.2.mount_point, s!"{d.1}{p.1}")

/-- `_mount_filesystems`: the sorted list of (target, source) pairs handed
to `_do_mount` (Python's `sorted` is a stable merge sort under the tuple
order).  The function's result in the script is the `_do_mount` context
manager applied to this list. -/
def _mount_filesystems (partitions : PartitionTable) (root : String) :
    List (String × String) :=
  (rawMountSpecs partitions root).mergeSort pairLE

/-- Errors `_get_mount_specs` can raise: the `ValueError` for a duplicate
mount point (carrying the normalized mount point), or the `KeyError` from
`mount_points['']` when no root partition exists. -/
inductive SpecErr where
  | duplicateMountPoint (mp : String)
  | missingRoot
deriving DecidableEq, Repr

/-- One entry of the nested iteration of `_get_mount_specs` and
`_partition`: disk device path, 1-based partition index, partition spec. -/
abbrev TableEntry := String × Nat × Partition

/-- The nested loops `for disk, partition_items in partitions.items(): for
i, partition_item in enumerate(partition_items, 1)` visit exactly this
flattened list, in this order. -/
def flattenTable (partitions : PartitionTable) : List TableEntry :=
  partitions.flatMap fun d => (List.enumFrom 1 d.2).map fun p => (d.1, p.1, p.2)

/-- The normalized mount point of a table entry:
`partition_item.mount_point.rstrip('/')`. -/
def nmp (e : TableEntry) : String :=
  rstripSlash e.2.2.mount_point

/-- The `MountSpec` value `_get_mount_specs` builds for a table entry. -/
def entrySpec (e : TableEntry) : MountSpec :=
  { disk := e.1, partition_id := e.2.1, file_system_name := e.2.2.file_system.fsName }

/-- The loop body of `_get_mount_specs`, as a fold over the flattened table
in iteration order, with the working `mount_points` dict as an association
list (keys are checked before insertion, so lookup order is immaterial;
we append to preserve insertion order).  On a key collision it raises
`ValueError` at once and processes nothing further. -/
def insertSpecs (acc : List (String × MountSpec)) :
    List TableEntry → Except SpecErr (List (String × MountSpec))
  | [] => .ok acc
  | e :: rest =>
    if (acc.lookup (nmp e)).isSome then
      .error (.duplicateMountPoint (nmp e))
    else
      insertSpecs (acc ++ [(nmp e, entrySpec e)]) rest

/-- `_get_mount_specs`: build the mount-point dict, then
`MountSpecs(root=mount_points[''], boot=mount_points.get('/boot'),
home=mount_points.get('/home'))`; the mandatory `['']` lookup raises
`KeyError` when absent. -/
def _get_mount_specs (partitions : PartitionTable) : Except SpecErr MountSpecs := do
  let m ← insertSpecs [] (flattenTable partitions)
  match m.lookup "" with
  | none => .error .missingRoot
  | some root => .ok { root := root, boot := m.lookup "/boot", home := m.lookup "/home" }

/-- Python's `'  '.join` (two-space separator). -/
def joinTwoSp : List String → String
  | [] => ""
  | [x] => x
  | x :: xs => x ++ "  " ++ joinTwoSp xs

/-- `_write_fstab`: the lines appended to `etc/fstab`.  The loop walks
`[('/boot', boot), ('/home', home)]` in order; a line is collected when
`mount_spec and mount_spec.disk != mount_specs.root.disk` (a `MountSpec`
named tuple is a non-empty tuple, hence truthy whenever present).  Each
line is the 6-tuple joined by `'  '.join(map(str, line))`; `str(0)` is
`"0"`. -/
def _write_fstab (mount_specs : MountSpecs) : List String :=
  let lines := [("/boot", mount_specs.boot), ("/home", mount_specs.home)].foldl
    (fun acc te =>
      match te.2 with
      | some spec =>
        if spec.disk ≠ mount_specs.root.disk then
          acc ++ [[spec.partition, te.1, spec.file_system_name, "defaults", "0", "0"]]
        else acc
      | none => acc) []
  lines.map joinTwoSp

/-- The first table entry (in iteration order) whose normalized mount
point is `mp`, as a `MountSpec`; used to state what `_get_mount_specs`
returns when the table has no duplicate mount points. -/
def findSpec (partitions : PartitionTable) (mp : String) : Option MountSpec :=
  ((flattenTable partitions).find? fun e => nmp e == mp).map entrySpec

/-- Spec-side description of the Partitioner's create command, following
the claim as amended: an explicit `+<size>M` argument when a nonzero fixed
MiB size is given, the all-remaining-space form (`-n=<i>:0:0`) when the
size is absent or zero. -/
def createCmdSpec (disk : String) (i : Nat) (size : Option Int) : List String :=
  match size with
  | some n =>
    if n ≠ 0 then ["sgdisk", s!"-n={i}:0:+{n}M", disk]
    else ["sgdisk", s!"-n={i}:0:0", disk]
  | none => ["sgdisk", s!"-n={i}:0:0", disk]

/-- Spec-side description of the commands the Partitioner issues for the
partition with 1-based index `i`: create, then set the type code for index
`i`, then format the physical partition identifier (disk path concatenated
with `i`). -/
def partitionStepSpec (disk : String) (i : Nat) (item : Partition) :
    List (List String) :=
  [createCmdSpec disk i item.size,
   ["sgdisk", s!"-t={i}:{item.partition_type.type_id}", disk],
   item.file_system.formatter ++ [s!"{disk}{i}"]]

/-- Spec-side description of the commands the Partitioner issues for one
disk: first destroy/reinitialize the partition table, then the per-partition
commands strictly in list order with 1-based indices. -/
def diskCmdsSpec (disk : String) (items : List Partition) : List (List String) :=
  [["sgdisk", "-Z", disk]] ++
    (List.enumFrom 1 items).flatMap fun p => partitionStepSpec disk p.1 p.2

/-- Spec-side description of the whole Partitioner run: the per-disk
command blocks, disk by disk in table order. -/
def partitionCmdsSpec (partitions : PartitionTable) : List (List String) :=
  partitions.flatMap fun d => diskCmdsSpec d.1 d.2

/-! ### Helper lemmas about `doMount` -/

/-- Under the all-success oracle, the scope acquires every pair in order,
runs the body, and unmounts in exact reverse order; the body's outcome is
the outcome of the scope. -/
theorem doMount_allOk (body : Body) (specs : List (String × String)) :
    doMount allOk body specs
      = (specs.flatMap acquireCmds ++ body.1 ++ (specs.map umountCmd).reverse,
          body.2) := by
  induction specs with
  | nil => simp [doMount]
  | cons p rest ih =>
    obtain ⟨t, s⟩ := p
    simp [doMount, runCmd, allOk, ih, acquireCmds, umountCmd]

/-- Whenever every acquisition command succeeds, the issued trace is the
full acquisition sequence, the body's commands, then every unmount in
reverse order — no matter how the unmounts themselves turn out. -/
theorem doMount_trace_of_acquires_ok (oracle : Oracle) (body : Body)
    (specs : List (String × String))
    (h : ∀ p ∈ specs,
      oracle ["mkdir", "-p", p.1] = .ok ∧ oracle ["mount", p.2, p.1] = .ok) :
    (doMount oracle body specs).1
      = specs.flatMap acquireCmds ++ body.1 ++ (specs.map umountCmd).reverse := by
  induction specs with
  | nil => simp [doMount]
  | cons p rest ih =>
    obtain ⟨t, s⟩ := p
    obtain ⟨h1, h2⟩ := h (t, s) (List.mem_cons_self _ _)
    have ih' := ih fun q hq => h q (List.mem_cons_of_mem _ hq)
    simp [doMount, runCmd, h1, h2, ih', acquireCmds, umountCmd]

/-- If every acquisition succeeds and some unmount fails, the scope's
outcome is an exception. -/
theorem doMount_isSome_of_umount_fail (oracle : Oracle) (body : Body)
    (specs : List (String × String))
    (hacq : ∀ p ∈ specs,
      oracle ["mkdir", "-p", p.1] = .ok ∧ oracle ["mount", p.2, p.1] = .ok)
    (hfail : ∃ p ∈ specs, oracle (umountCmd p) = .fail) :
    ((doMount oracle body specs).2).isSome := by
  induction specs with
  | nil => simp at hfail
  | cons p rest ih =>
    obtain ⟨t, s⟩ := p
    obtain ⟨h1, h2⟩ := hacq (t, s) (List.mem_cons_self _ _)
    have hacq' := fun q hq => hacq q (List.mem_cons_of_mem _ hq)
    rcases hfail with ⟨q, hq, hqf⟩
    rcases List.mem_cons.mp hq with rfl | hq'
    · simp [doMount, runCmd, h1, h2, umountCmd] at hqf ⊢
      simp [hqf]
    · cases hu : oracle ["umount", t] <;>
        simp [doMount, runCmd, h1, h2, hu, ih hacq' ⟨q, hq', hqf⟩]

/-- If the k-th acquisition command fails after k−1 fully successful
pairs, the trace is: the k−1 acquisitions, the failing pair's commands
(which contain no unmount), then exactly the k−1 unmounts in reverse
order, and the command failure is the scope's outcome. -/
theorem doMount_fail_trace (oracle : Oracle) (body : Body)
    (pre : List (String × String)) (t s : String) (rest : List (String × String))
    (hpre : ∀ p ∈ pre, oracle ["mkdir", "-p", p.1] = .ok
        ∧ oracle ["mount", p.2, p.1] = .ok ∧ oracle ["umount", p.1] = .ok)
    (hfail : oracle ["mkdir", "-p", t] = .fail
        ∨ (oracle ["mkdir", "-p", t] = .ok ∧ oracle ["mount", s, t] = .fail)) :
    ∃ failTrace failCmd,
      doMount oracle body (pre ++ (t, s) :: rest)
        = (pre.flatMap acquireCmds ++ failTrace ++ (pre.map umountCmd).reverse,
            some (.cmdFailed failCmd))
      ∧ ∀ c ∈ failTrace, c.head? ≠ some "umount" := by
  induction pre with
  | nil =>
    rcases hfail with h | ⟨h1, h2⟩
    · exact ⟨[["mkdir", "-p", t]], ["mkdir", "-p", t],
        by simp [doMount, runCmd, h], by simp⟩
    · exact ⟨[["mkdir", "-p", t], ["mount", s, t]], ["mount", s, t],
        by simp [doMount, runCmd, h1, h2], by simp⟩
  | cons p pre' ih =>
    obtain ⟨pt, ps⟩ := p
    obtain ⟨h1, h2, h3⟩ := hpre (pt, ps) (List.mem_cons_self _ _)
    obtain ⟨ft, fc, hft, hnoum⟩ :=
      ih fun q hq => hpre q (List.mem_cons_of_mem _ hq)
    refine ⟨ft, fc, ?_, hnoum⟩
    simp [doMount, runCmd, h1, h2, h3, hft, acquireCmds, umountCmd]

/-! ### The tuple order used by `sorted` -/

/-- `pairLE` is transitive. -/
theorem pairLE_trans (a b c : String × String)
    (hab : pairLE a b = true) (hbc : pairLE b c = true) : pairLE a c = true := by
  simp only [pairLE, decide_eq_true_eq] at *
  rcases hab with h1 | ⟨h1, h2⟩ <;> rcases hbc with h3 | ⟨h3, h4⟩
  · exact Or.inl (lt_trans h1 h3)
  · exact Or.inl (lt_of_lt_of_le h1 (le_of_eq h3))
  · exact Or.inl (lt_of_le_of_lt (le_of_eq h1) h3)
  · exact Or.inr ⟨h1.trans h3, le_trans h2 h4⟩

/-- `pairLE` is total. -/
theorem pairLE_total (a b : String × String) :
    (pairLE a b || pairLE b a) = true := by
  simp only [pairLE, Bool.or_eq_true, decide_eq_true_eq]
  rcases lt_trichotomy a.1 b.1 with h | h | h
  · exact Or.inl (Or.inl h)
  · rcases le_total a.2 b.2 with h2 | h2
    · exact Or.inl (Or.inr ⟨h, h2⟩)
    · exact Or.inr (Or.inr ⟨h.symm, h2⟩)
  · exact Or.inr (Or.inl h)

/-- In the tuple order, the first components are `≤`-related. -/
theorem pairLE_fst_le {a b : String × String} (h : pairLE a b = true) :
    a.1 ≤ b.1 := by
  simp only [pairLE, decide_eq_true_eq] at h
  rcases h with h | ⟨h, _⟩
  · exact le_of_lt h
  · exact le_of_eq h

/-! ### Claims C1, C3, C5 -/

/-- C1: For any sequence of (target path, source device) pairs, the Mount
Orchestrator (`_mount_filesystems` composed with `_do_mount`) acquires
mounts in ascending lexicographic order of target path and, on normal
scope exit, issues exactly N unmounts in exactly the reverse order of
acquisition: the recorded command sequence is, for each pair in ascending
order, `mkdir` then `mount`; then, after the body, `umount` for each
target in descending order. -/
theorem mount_unmount_order (partitions : PartitionTable) (root : String) :
    ((_mount_filesystems partitions root).map Prod.fst).Pairwise (· ≤ ·)
    ∧ (_mount_filesystems partitions root).Perm (rawMountSpecs partitions root)
    ∧ doMount allOk ([], none) (_mount_filesystems partitions root)
        = ((_mount_filesystems partitions root).flatMap acquireCmds
            ++ ((_mount_filesystems partitions root).map umountCmd).reverse,
           none) := by
  refine ⟨?_, List.mergeSort_perm _ _, ?_⟩
  · have hs := List.sorted_mergeSort pairLE_trans pairLE_total
      (rawMountSpecs partitions root)
    exact hs.map Prod.fst fun a b h => pairLE_fst_le h
  · simpa using doMount_allOk ([], none) (_mount_filesystems partitions root)

/-- C3: If the caller-supplied body raises an error after all N mounts
have been acquired, all N unmount commands are still issued, innermost
(most recently acquired) first, before the body's error propagates out of
the scope. -/
theorem body_error_still_unmounts (specs : List (String × String))
    (bodyTrace : List (List String)) :
    doMount allOk (bodyTrace, some .bodyErr) specs
      = (specs.flatMap acquireCmds ++ bodyTrace ++ (specs.map umountCmd).reverse,
          some .bodyErr) :=
  doMount_allOk (bodyTrace, some .bodyErr) specs

/-- C5: If the protected body (or a command it runs) is interrupted by a
keyboard interrupt while all acquired mounts are held, the full
reverse-order unmount teardown still runs for every acquired mount before
the interrupt propagates and terminates the process: the scope is never
exited by cancellation with an acquired mount left unreleased. -/
theorem interrupt_still_unmounts (specs : List (String × String))
    (bodyTrace : List (List String)) :
    doMount allOk (bodyTrace, some .interrupt) specs
      = (specs.flatMap acquireCmds ++ bodyTrace ++ (specs.map umountCmd).reverse,
          some .interrupt) :=
  doMount_allOk (bodyTrace, some .interrupt) specs

/-! ### Claims C2 and C4 -/

/-- Acquisition commands are never unmount commands. -/
theorem countP_umount_acquire (specs : List (String × String)) :
    (specs.flatMap acquireCmds).countP (fun c => c.head? == some "umount") = 0 := by
  rw [List.countP_eq_zero]
  intro c hc
  rw [List.mem_flatMap] at hc
  obtain ⟨p, _, hp⟩ := hc
  simp only [acquireCmds, List.mem_cons, List.not_mem_nil, or_false] at hp
  rcases hp with rfl | rfl <;> simp

/-- The reverse-order unmount block consists of unmount commands only. -/
theorem countP_umount_umounts (specs : List (String × String)) :
    ((specs.map umountCmd).reverse).countP (fun c => c.head? == some "umount")
      = specs.length := by
  have h : ∀ c ∈ (specs.map umountCmd).reverse, (c.head? == some "umount") = true := by
    intro c hc
    simp only [List.mem_reverse, List.mem_map] at hc
    obtain ⟨p, _, rfl⟩ := hc
    simp [umountCmd]
  rw [List.countP_eq_length.mpr h]
  simp

/-- C2: If acquisition of the k-th mount (its `mkdir` or its `mount`
command) fails after k−1 fully successful pairs, then exactly k−1 unmount
commands are issued, targeting the k−1 previously acquired mount points in
reverse order of acquisition, before the command failure propagates to the
caller of the scope; no acquired mount is leaked. -/
theorem mount_acquire_fail_unwinds (oracle : Oracle) (body : Body)
    (pre : List (String × String)) (t s : String) (rest : List (String × String))
    (hpre : ∀ p ∈ pre, oracle ["mkdir", "-p", p.1] = .ok
        ∧ oracle ["mount", p.2, p.1] = .ok ∧ oracle ["umount", p.1] = .ok)
    (hfail : oracle ["mkdir", "-p", t] = .fail
        ∨ (oracle ["mkdir", "-p", t] = .ok ∧ oracle ["mount", s, t] = .fail)) :
    ∃ failTrace failCmd,
      doMount oracle body (pre ++ (t, s) :: rest)
        = (pre.flatMap acquireCmds ++ failTrace ++ (pre.map umountCmd).reverse,
            some (.cmdFailed failCmd))
      ∧ (∀ c ∈ failTrace, c.head? ≠ some "umount")
      ∧ (doMount oracle body (pre ++ (t, s) :: rest)).1.countP
          (fun c => c.head? == some "umount") = pre.length := by
  obtain ⟨ft, fc, heq, hno⟩ := doMount_fail_trace oracle body pre t s rest hpre hfail
  refine ⟨ft, fc, heq, hno, ?_⟩
  have hft : ft.countP (fun c => c.head? == some "umount") = 0 :=
    List.countP_eq_zero.mpr fun c hc => by simpa using hno c hc
  rw [heq]
  show (pre.flatMap acquireCmds ++ ft ++ (pre.map umountCmd).reverse).countP
      (fun c => c.head? == some "umount") = pre.length
  rw [List.countP_append, List.countP_append, countP_umount_acquire, hft,
    countP_umount_umounts]
  omega

/-- Oracle for the C2 witness: `mkdir -p /mnt/boot` fails, everything else
succeeds. -/
def mkdirBootFails : Oracle := fun c =>
  if c = ["mkdir", "-p", "/mnt/boot"] then .fail else .ok

/-- Witness for C2 at a concrete two-pair sequence whose second `mkdir`
fails. -/
theorem mount_acquire_fail_unwinds_witness :
    (∀ p ∈ ([("/mnt", "/dev/sda2")] : List (String × String)),
        mkdirBootFails ["mkdir", "-p", p.1] = .ok
        ∧ mkdirBootFails ["mount", p.2, p.1] = .ok
        ∧ mkdirBootFails ["umount", p.1] = .ok)
    ∧ (∃ failTrace failCmd,
        doMount mkdirBootFails ([], none)
            ([("/mnt", "/dev/sda2")] ++ ("/mnt/boot", "/dev/sda1") :: [])
          = ([("/mnt", "/dev/sda2")].flatMap acquireCmds ++ failTrace
                ++ ([("/mnt", "/dev/sda2")].map umountCmd).reverse,
              some (.cmdFailed failCmd))
        ∧ (∀ c ∈ failTrace, c.head? ≠ some "umount")
        ∧ (doMount mkdirBootFails ([], none)
              ([("/mnt", "/dev/sda2")] ++ ("/mnt/boot", "/dev/sda1") :: [])).1.countP
            (fun c => c.head? == some "umount")
            = [("/mnt", "/dev/sda2")].length) :=
  ⟨by decide,
    mount_acquire_fail_unwinds mkdirBootFails ([], none)
      [("/mnt", "/dev/sda2")] "/mnt/boot" "/dev/sda1" []
      (by decide) (Or.inl (by decide))⟩

/-- C4: If an unmount command fails during teardown while every
acquisition succeeded, the orchestrator still attempts the unmount of
every mount — the full acquisition trace is followed by every unmount in
reverse order, the failure notwithstanding — and a failure then propagates
out of the scope. -/
theorem umount_fail_teardown_continues (oracle : Oracle) (body : Body)
    (specs : List (String × String))
    (hacq : ∀ p ∈ specs,
        oracle ["mkdir", "-p", p.1] = .ok ∧ oracle ["mount", p.2, p.1] = .ok)
    (hfail : ∃ p ∈ specs, oracle (umountCmd p) = .fail) :
    (doMount oracle body specs).1
        = specs.flatMap acquireCmds ++ body.1 ++ (specs.map umountCmd).reverse
    ∧ ((doMount oracle body specs).2).isSome :=
  ⟨doMount_trace_of_acquires_ok oracle body specs hacq,
   doMount_isSome_of_umount_fail oracle body specs hacq hfail⟩

/-- Oracle for the C4 witness: `umount /mnt/boot` fails, everything else
succeeds. -/
def umountBootFails : Oracle := fun c =>
  if c = ["umount", "/mnt/boot"] then .fail else .ok

/-- Witness for C4 at a concrete three-pair sequence whose middle unmount
fails. -/
theorem umount_fail_teardown_continues_witness :
    (∀ p ∈ ([("/mnt", "/dev/sda2"), ("/mnt/boot", "/dev/sda1"),
          ("/mnt/home", "/dev/sda3")] : List (String × String)),
        umountBootFails ["mkdir", "-p", p.1] = .ok
        ∧ umountBootFails ["mount", p.2, p.1] = .ok)
    ∧ (∃ p ∈ ([("/mnt", "/dev/sda2"), ("/mnt/boot", "/dev/sda1"),
          ("/mnt/home", "/dev/sda3")] : List (String × String)),
        umountBootFails (umountCmd p) = .fail)
    ∧ ((doMount umountBootFails ([], none)
          [("/mnt", "/dev/sda2"), ("/mnt/boot", "/dev/sda1"),
            ("/mnt/home", "/dev/sda3")]).1
        = [("/mnt", "/dev/sda2"), ("/mnt/boot", "/dev/sda1"),
            ("/mnt/home", "/dev/sda3")].flatMap acquireCmds
          ++ []
          ++ ([("/mnt", "/dev/sda2"), ("/mnt/boot", "/dev/sda1"),
              ("/mnt/home", "/dev/sda3")].map umountCmd).reverse
      ∧ ((doMount umountBootFails ([], none)
          [("/mnt", "/dev/sda2"), ("/mnt/boot", "/dev/sda1"),
            ("/mnt/home", "/dev/sda3")]).2).isSome) :=
  ⟨by decide, by decide,
    umount_fail_teardown_continues umountBootFails ([], none)
      [("/mnt", "/dev/sda2"), ("/mnt/boot", "/dev/sda1"), ("/mnt/home", "/dev/sda3")]
      (by decide) (by decide)⟩

/-! ### Helper lemmas about `_get_mount_specs` -/

/-- Association-list lookup succeeds exactly for present keys. -/
theorem lookup_isSome_iff (xs : List (String × MountSpec)) (k : String) :
    (xs.lookup k).isSome ↔ k ∈ xs.map Prod.fst := by
  induction xs with
  | nil => simp
  | cons p xs ih =>
    by_cases h : k = p.1
    · simp [List.lookup, h]
    · have hb : (k == p.1) = false := beq_eq_false_iff_ne.mpr h
      simp only [List.lookup, hb, List.map_cons, List.mem_cons]
      rw [ih]
      simp [h]

/-- The nested loops of the script visit a concatenated table disk block
by disk block. -/
theorem flattenTable_append (a b : PartitionTable) :
    flattenTable (a ++ b) = flattenTable a ++ flattenTable b := by
  simp [flattenTable]

/-- If the normalized mount points still to be processed collide with each
other or with the keys already inserted, `_get_mount_specs`'s loop raises
the duplicate-mount-point error. -/
theorem insertSpecs_error_of_dup (l : List TableEntry)
    (acc : List (String × MountSpec))
    (hnd : (acc.map Prod.fst).Nodup)
    (hdup : ¬ (acc.map Prod.fst ++ l.map nmp).Nodup) :
    ∃ mp, insertSpecs acc l = .error (.duplicateMountPoint mp) := by
  induction l generalizing acc with
  | nil => simp only [List.map_nil, List.append_nil] at hdup; exact absurd hnd hdup
  | cons e rest ih =>
    cases hl : acc.lookup (nmp e) with
    | some v => exact ⟨nmp e, by simp [insertSpecs, hl]⟩
    | none =>
      have hnotin : nmp e ∉ acc.map Prod.fst := by
        rw [← lookup_isSome_iff, hl]
        simp
      have hnd' : ((acc ++ [(nmp e, entrySpec e)]).map Prod.fst).Nodup := by
        simp only [List.map_append, List.map_cons, List.map_nil]
        rw [List.nodup_append]
        exact ⟨hnd, List.nodup_singleton _, by simpa using hnotin⟩
      have hdup' :
          ¬ (((acc ++ [(nmp e, entrySpec e)]).map Prod.fst) ++ rest.map nmp).Nodup := by
        intro hc
        apply hdup
        simpa [List.append_assoc] using hc
      obtain ⟨mp, hmp⟩ := ih _ hnd' hdup'
      exact ⟨mp, by simp [insertSpecs, hl, hmp]⟩

/-- A loop that already raised keeps raising the same error on any longer
input: nothing after the duplicate is processed. -/
theorem insertSpecs_error_append (l l' : List TableEntry)
    (acc : List (String × MountSpec)) (e : SpecErr)
    (h : insertSpecs acc l = .error e) :
    insertSpecs acc (l ++ l') = .error e := by
  induction l generalizing acc with
  | nil => simp [insertSpecs] at h
  | cons x rest ih =>
    cases hl : acc.lookup (nmp x) with
    | some v =>
      simp only [insertSpecs, hl] at h ⊢
      exact h
    | none =>
      simp only [insertSpecs, hl] at h ⊢
      exact ih _ h

/-- When no collision occurs, the loop returns the accumulated mapping
extended with one entry per table entry, in iteration order. -/
theorem insertSpecs_ok_of_nodup (l : List TableEntry)
    (acc : List (String × MountSpec))
    (hnd : (acc.map Prod.fst ++ l.map nmp).Nodup) :
    insertSpecs acc l = .ok (acc ++ l.map fun e => (nmp e, entrySpec e)) := by
  induction l generalizing acc with
  | nil => simp [insertSpecs]
  | cons e rest ih =>
    have hnotin : nmp e ∉ acc.map Prod.fst := by
      rw [List.nodup_append] at hnd
      intro hmem
      exact hnd.2.2 hmem (by simp)
    have hl : acc.lookup (nmp e) = none := by
      rw [← Option.not_isSome_iff_eq_none, lookup_isSome_iff]
      exact hnotin
    have hnd' : (((acc ++ [(nmp e, entrySpec e)]).map Prod.fst) ++ rest.map nmp).Nodup := by
      simp only [List.map_append, List.map_cons, List.map_nil, List.append_assoc,
        List.singleton_append]
      simpa using hnd
    rw [insertSpecs, hl]
    rw [ih _ hnd']
    simp

/-- Looking up the mapping built from a list of table entries finds the
first entry with the requested normalized mount point. -/
theorem lookup_map_entry (l : List TableEntry) (mp : String) :
    ((l.map fun e => (nmp e, entrySpec e)).lookup mp)
      = (l.find? fun e => nmp e == mp).map entrySpec := by
  induction l with
  | nil => rfl
  | cons e rest ih =>
    by_cases h : mp = nmp e
    · simp [List.lookup, List.find?, h]
    · have h' : (nmp e == mp) = false := by
        simp [beq_eq_false_iff_ne]
        exact fun hc => h hc.symm
      simp [List.lookup, List.find?, h', ih, beq_eq_false_iff_ne.mpr h]

/-! ### Claims C6 and C7 -/

/-- C6: For every partition table in which two partitions (on any disks)
share the same normalized mount point, the Mount Spec Resolver
(`_get_mount_specs`) fails with the duplicate-mount-point configuration
error; the failure arises inside the insertion loop, so no entries after
the colliding one are processed (extending the table cannot change the
outcome), and the pure resolver issues no command at all, in particular no
mount. -/
theorem duplicate_mount_point_rejected (partitions : PartitionTable)
    (hdup : ¬ (((flattenTable partitions).map nmp).Nodup)) :
    ∃ mp, _get_mount_specs partitions = .error (.duplicateMountPoint mp)
      ∧ ∀ extra : PartitionTable,
          _get_mount_specs (partitions ++ extra)
            = .error (.duplicateMountPoint mp) := by
  obtain ⟨mp, h⟩ := insertSpecs_error_of_dup (flattenTable partitions) []
    (by simp) (by simpa using hdup)
  refine ⟨mp, ?_, fun extra => ?_⟩
  · simp only [_get_mount_specs, h]
    rfl
  · have hext := insertSpecs_error_append (flattenTable partitions)
      (flattenTable extra) [] _ h
    simp only [_get_mount_specs, flattenTable_append, hext]
    rfl

/-- Witness for C6: two partitions both mounted at `/`. -/
theorem duplicate_mount_point_rejected_witness :
    (¬ (((flattenTable
        [("/dev/sda",
          [⟨some 100, .LINUX_X86_64_ROOT, .EXT4, "/"⟩,
           ⟨none, .LINUX_HOME, .BTRFS, "/"⟩])]).map nmp).Nodup))
    ∧ (∃ mp, _get_mount_specs
          [("/dev/sda",
            [⟨some 100, .LINUX_X86_64_ROOT, .EXT4, "/"⟩,
             ⟨none, .LINUX_HOME, .BTRFS, "/"⟩])]
          = .error (.duplicateMountPoint mp)
        ∧ ∀ extra : PartitionTable,
            _get_mount_specs
              ([("/dev/sda",
                [⟨some 100, .LINUX_X86_64_ROOT, .EXT4, "/"⟩,
                 ⟨none, .LINUX_HOME, .BTRFS, "/"⟩])] ++ extra)
              = .error (.duplicateMountPoint mp)) :=
  ⟨by decide,
    duplicate_mount_point_rejected
      [("/dev/sda",
        [⟨some 100, .LINUX_X86_64_ROOT, .EXT4, "/"⟩,
         ⟨none, .LINUX_HOME, .BTRFS, "/"⟩])]
      (by decide)⟩

/-- Membership in `enumFrom`: the carried index is the element's offset
from the start of the enumeration. -/
theorem mem_enumFrom_iff {α : Type} (l : List α) (n : Nat) (q : Nat × α) :
    q ∈ List.enumFrom n l ↔ n ≤ q.1 ∧ l[q.1 - n]? = some q.2 := by
  induction l generalizing n with
  | nil => simp
  | cons x xs ih =>
    obtain ⟨i, a⟩ := q
    simp only [List.enumFrom_cons, List.mem_cons, ih]
    constructor
    · rintro (h | ⟨h1, h2⟩)
      · obtain ⟨rfl, rfl⟩ := Prod.mk.injEq .. ▸ h
        simp
      · refine ⟨by omega, ?_⟩
        have hi : i - n = (i - (n + 1)) + 1 := by omega
        rw [hi, List.getElem?_cons_succ]
        exact h2
    · rintro ⟨h1, h2⟩
      by_cases hi : i = n
      · subst hi
        simp only [Nat.sub_self, List.getElem?_cons_zero, Option.some.injEq] at h2
        exact Or.inl (by rw [h2])
      · refine Or.inr ⟨by omega, ?_⟩
        have hs : i - n = (i - (n + 1)) + 1 := by omega
        rw [hs, List.getElem?_cons_succ] at h2
        exact h2

/-- Membership in the flattened table: an entry carries its disk's device
path and its partition's 1-based position within that disk's sequence. -/
theorem mem_flattenTable_iff (partitions : PartitionTable) (e : TableEntry) :
    e ∈ flattenTable partitions
      ↔ ∃ items, (e.1, items) ∈ partitions ∧ 1 ≤ e.2.1
          ∧ items[e.2.1 - 1]? = some e.2.2 := by
  obtain ⟨dk, i, item⟩ := e
  simp only [flattenTable, List.mem_flatMap, List.mem_map]
  constructor
  · rintro ⟨d, hd, p, hp, hpe⟩
    obtain ⟨d1, d2⟩ := d
    obtain ⟨pi, pa⟩ := p
    obtain ⟨rfl, rfl, rfl⟩ := Prod.mk.injEq .. ▸ hpe
    rw [mem_enumFrom_iff] at hp
    exact ⟨d2, hd, hp.1, hp.2⟩
  · rintro ⟨items, hmem, h1, h2⟩
    exact ⟨(dk, items), hmem, (i, item),
      (mem_enumFrom_iff items 1 (i, item)).mpr ⟨h1, h2⟩, rfl⟩

/-- Shape of `_get_mount_specs` once the insertion loop has succeeded:
`root` is the mandatory `['']` lookup, `boot`/`home` the optional ones. -/
theorem get_mount_specs_eq_of_insert_ok (partitions : PartitionTable)
    (m : List (String × MountSpec))
    (hm : insertSpecs [] (flattenTable partitions) = .ok m) :
    _get_mount_specs partitions
      = match m.lookup "" with
        | none => .error .missingRoot
        | some root =>
            .ok { root := root, boot := m.lookup "/boot", home := m.lookup "/home" } := by
  simp only [_get_mount_specs, hm]
  rfl

/-- C7: For every partition table with no duplicate normalized mount
points that contains a partition with normalized mount point `""` (i.e.
`/`), the Mount Spec Resolver succeeds: its root is the `""` partition's
spec, boot/home are present exactly when a partition has normalized mount
point `/boot`/`/home`, and every table entry's `MountSpec` carries the
partition's disk and its 1-based position within that disk's sequence. -/
theorem resolver_ok (partitions : PartitionTable)
    (hnd : ((flattenTable partitions).map nmp).Nodup)
    (hroot : ∃ e ∈ flattenTable partitions, nmp e = "") :
    ∃ r, findSpec partitions "" = some r
      ∧ _get_mount_specs partitions
          = .ok { root := r, boot := findSpec partitions "/boot",
                  home := findSpec partitions "/home" }
      ∧ ((findSpec partitions "/boot").isSome
          ↔ ∃ e ∈ flattenTable partitions, nmp e = "/boot")
      ∧ ((findSpec partitions "/home").isSome
          ↔ ∃ e ∈ flattenTable partitions, nmp e = "/home")
      ∧ (∀ e ∈ flattenTable partitions,
          ∃ items, (e.1, items) ∈ partitions ∧ 1 ≤ e.2.1
            ∧ items[e.2.1 - 1]? = some e.2.2) := by
  have hm : insertSpecs [] (flattenTable partitions)
      = .ok ((flattenTable partitions).map fun e => (nmp e, entrySpec e)) := by
    simpa using insertSpecs_ok_of_nodup (flattenTable partitions) [] (by simpa using hnd)
  have hfindsome : ((flattenTable partitions).find? fun e => nmp e == "").isSome := by
    rw [List.find?_isSome]
    obtain ⟨e, he, hmp⟩ := hroot
    exact ⟨e, he, by simp [hmp]⟩
  obtain ⟨e0, he0⟩ := Option.isSome_iff_exists.mp hfindsome
  refine ⟨entrySpec e0, by simp [findSpec, he0], ?_, ?_, ?_,
    fun e he => (mem_flattenTable_iff partitions e).mp he⟩
  · rw [get_mount_specs_eq_of_insert_ok partitions _ hm, lookup_map_entry, he0,
      lookup_map_entry, lookup_map_entry]
    simp [findSpec]
  · rw [findSpec, Option.isSome_map', List.find?_isSome]
    simp [beq_iff_eq]
  · rw [findSpec, Option.isSome_map', List.find?_isSome]
    simp [beq_iff_eq]

/-- The partition table of the script's own `_get_configuration`. -/
def exampleTable : PartitionTable :=
  [("/dev/sda",
    [⟨some 256, .EFI_SYSTEM, .FAT32, "/boot"⟩,
     ⟨some 10240, .LINUX_X86_64_ROOT, .EXT4, "/"⟩,
     ⟨none, .LINUX_HOME, .BTRFS, "/home"⟩])]

/-- Witness for C7 at the script's own configuration. -/
theorem resolver_ok_witness :
    ((flattenTable exampleTable).map nmp).Nodup
    ∧ (∃ e ∈ flattenTable exampleTable, nmp e = "")
    ∧ (∃ r, findSpec exampleTable "" = some r
        ∧ _get_mount_specs exampleTable
            = .ok { root := r, boot := findSpec exampleTable "/boot",
                    home := findSpec exampleTable "/home" }
        ∧ ((findSpec exampleTable "/boot").isSome
            ↔ ∃ e ∈ flattenTable exampleTable, nmp e = "/boot")
        ∧ ((findSpec exampleTable "/home").isSome
            ↔ ∃ e ∈ flattenTable exampleTable, nmp e = "/home")
        ∧ (∀ e ∈ flattenTable exampleTable,
            ∃ items, (e.1, items) ∈ exampleTable ∧ 1 ≤ e.2.1
              ∧ items[e.2.1 - 1]? = some e.2.2)) :=
  ⟨by decide, by decide, resolver_ok exampleTable (by decide) (by decide)⟩

/-! ### Claim C8 -/

/-- Joining six fields with the two-space separator. -/
theorem joinTwoSp_six (a b c d e f : String) :
    joinTwoSp [a, b, c, d, e, f]
      = a ++ "  " ++ b ++ "  " ++ c ++ "  " ++ d ++ "  " ++ e ++ "  " ++ f := by
  simp [joinTwoSp, ← String.append_assoc]

/-- C8: For every resolved `MountSpecs` value, the Fstab Emitter emits
exactly one record for each of boot and home that is present and whose
disk differs from the root spec's disk, with whitespace-separated fields
`<physical-partition-identifier> <mount-point> <filesystem-name> defaults
0 0`; absent roles and roles backed by the root's disk produce no record,
and when both qualify the boot line comes before the home line. -/
theorem fstab_lines (ms : MountSpecs) :
    _write_fstab ms
      = (match ms.boot with
          | some b =>
            if b.disk ≠ ms.root.disk then
              [b.partition ++ "  " ++ "/boot" ++ "  " ++ b.file_system_name
                ++ "  " ++ "defaults" ++ "  " ++ "0" ++ "  " ++ "0"]
            else []
          | none => [])
        ++ (match ms.home with
          | some hm =>
            if hm.disk ≠ ms.root.disk then
              [hm.partition ++ "  " ++ "/home" ++ "  " ++ hm.file_system_name
                ++ "  " ++ "defaults" ++ "  " ++ "0" ++ "  " ++ "0"]
            else []
          | none => []) := by
  obtain ⟨r, ob, oh⟩ := ms
  cases ob <;> cases oh <;>
    simp only [_write_fstab, List.foldl_cons, List.foldl_nil] <;>
    first
    | rfl
    | (split_ifs <;> simp [joinTwoSp_six])

/-! ### Claims C9 and C10 -/

/-- The commands the source's partition loop issues for one indexed
partition agree with the claim-side per-partition description (with the
truthiness branch on the size). -/
theorem partitionStep_eq (disk : String) (p : Nat × Partition) :
    ((match p.2.size with
      | some n => if n != 0 then ["sgdisk", s!"-n={p.1}:0:+{n}M", disk]
                  else ["sgdisk", s!"-n={p.1}:0:0", disk]
      | none => ["sgdisk", s!"-n={p.1}:0:0", disk]) ::
      ["sgdisk", s!"-t={p.1}:{p.2.partition_type.type_id}", disk] ::
      [p.2.file_system.formatter ++ [s!"{disk}{p.1}"]])
    = partitionStepSpec disk p.1 p.2 := by
  obtain ⟨i, item⟩ := p
  simp only [partitionStepSpec, createCmdSpec]
  cases hs : item.size with
  | none => rfl
  | some n =>
    by_cases h : n = 0
    · subst h
      simp
    · simp [h, bne_iff_ne]

/-- The per-disk block of the source's partition loop agrees with the
claim-side description. -/
theorem diskBlock_eq (disk : String) (items : List Partition) :
    (["sgdisk", "-Z", disk] ::
      (List.enumFrom 1 items).flatMap fun p =>
        (match p.2.size with
          | some n => if n != 0 then ["sgdisk", s!"-n={p.1}:0:+{n}M", disk]
                      else ["sgdisk", s!"-n={p.1}:0:0", disk]
          | none => ["sgdisk", s!"-n={p.1}:0:0", disk]) ::
        ["sgdisk", s!"-t={p.1}:{p.2.partition_type.type_id}", disk] ::
        [p.2.file_system.formatter ++ [s!"{disk}{p.1}"]])
    = diskCmdsSpec disk items := by
  rw [diskCmdsSpec, List.singleton_append]
  exact congrArg (List.cons _)
    (List.flatMap_congr fun p _ => partitionStep_eq disk p)

/-- C9 (amended): For every partition table, the Partitioner issues, per
disk, first the destroy/reinitialize command, then for each partition spec
strictly in list order with 1-based index `i`: the create command — with
an explicit `+<size>M` argument when a nonzero fixed MiB size is given,
and the all-remaining-space form when the size is absent or zero — then
the type-code command for index `i`, then the formatter command against
the physical partition identifier; no command for partition `i+1` precedes
any command for partition `i`. -/
theorem partitioner_commands (partitions : PartitionTable) :
    _partition partitions = partitionCmdsSpec partitions := by
  rw [_partition, partitionCmdsSpec]
  exact List.flatMap_congr fun d _ => diskBlock_eq d.1 d.2

/-- Counterexample to C9 as stated: for a partition whose size field is
present and equal to `0` MiB (a fixed MiB size is given), the Partitioner
issues the all-remaining-space create command `-n=1:0:0`, not the
`+0M`-sized create command the claim's dichotomy would require. -/
theorem partitioner_zero_size_counterexample :
    _partition [("/dev/sda", [⟨some 0, .EFI_SYSTEM, .FAT32, "/boot"⟩])]
      = [["sgdisk", "-Z", "/dev/sda"], ["sgdisk", "-n=1:0:0", "/dev/sda"],
         ["sgdisk", "-t=1:ef00", "/dev/sda"], ["mkfs.fat", "-F32", "/dev/sda1"]]
    ∧ ["sgdisk", "-n=1:0:+0M", "/dev/sda"]
        ∉ _partition [("/dev/sda", [⟨some 0, .EFI_SYSTEM, .FAT32, "/boot"⟩])] := by
  constructor
  · rfl
  · decide

/-- `enumFrom` distributes over append, shifting the start index. -/
theorem enumFrom_append {α : Type} (k : Nat) (xs ys : List α) :
    List.enumFrom k (xs ++ ys)
      = List.enumFrom k xs ++ List.enumFrom (k + xs.length) ys := by
  induction xs generalizing k with
  | nil => simp
  | cons x xs ih =>
    simp only [List.cons_append, List.enumFrom_cons, ih, List.length_cons]
    rw [Nat.add_comm xs.length 1, ← Nat.add_assoc]

/-- C10: For a partition spec whose size field is present but equal to 0,
the Partitioner issues the all-remaining-space creation command — the very
same command sequence as when the size is absent — because the code
branches on the truthiness of the size value rather than on its presence;
the issued create command for that partition is `-n=<i>:0:0`. -/
theorem zero_size_is_all_remaining (disk : String) (pre post : List Partition)
    (pt : PartitionType) (fs : FileSystemType) (mp : String) :
    _partition [(disk, pre ++ ⟨some 0, pt, fs, mp⟩ :: post)]
        = _partition [(disk, pre ++ ⟨none, pt, fs, mp⟩ :: post)]
    ∧ ["sgdisk", s!"-n={pre.length + 1}:0:0", disk]
        ∈ _partition [(disk, pre ++ ⟨some 0, pt, fs, mp⟩ :: post)] := by
  constructor
  · simp only [_partition, List.flatMap_cons, List.flatMap_nil, List.append_nil,
      enumFrom_append, List.enumFrom_cons, List.flatMap_append]
    simp
  · simp only [_partition, List.flatMap_cons, List.flatMap_nil, List.append_nil,
      enumFrom_append, List.enumFrom_cons, List.flatMap_append]
    have h1 : 1 + pre.length = pre.length + 1 := Nat.add_comm 1 pre.length
    rw [h1]
    simp

end InstallArch
